import Mathlib

/-!
Shallow embedding of the TalkToYourData document ingestion pipeline
(`backend/app/api/v1/documents.py`): text extraction, sliding-window
chunking, and the upload / list / delete handlers, together with proofs
about chunk counts, termination, reconstruction and the CRUD behaviour.

Modelling conventions:
* Python machine state (the SQL database touched through the session) is an
  explicit `DB` record threaded through the handlers; raising an
  `HTTPException` before any mutation is modelled by returning the input
  state unchanged together with `Except.error <status code>`.
* UUIDs and timestamps are opaque `Nat` identifiers.
* The third-party `pypdf` reader and Python's `bytes.decode("utf-8",
  errors="replace")` are external to the repository; they enter the
  embedding as function parameters (`pdfParse`, `decodeReplace`).
  `pdfParse raw = none` models "`PdfReader` (or page iteration) raised".
* The `while start < len(words)` loop of `_chunk_text` is embedded with
  explicit fuel (`chunkLoopFuel`); the loop index `start` is an `Int` and
  list slicing follows Python semantics (`pySlice`), because for
  `overlap > chunk_size` the Python variable `start` goes negative.
-/

namespace TTYD

/-- ASCII whitespace as recognised by Python `str.split()` (non-ASCII
Unicode whitespace is not modelled; no claim depends on it). -/
def isSpaceChar (c : Char) : Bool :=
  c == ' ' || c == '\t' || c == '\n' || c == '\r' || c == '\x0b' || c == '\x0c'

/-- Core of Python `text.split()`: scan the characters, accumulating the
current word reversed in `acc`, emitting a word at each whitespace run and
at the end.  Runs of whitespace produce no empty words. -/
def splitWordsAux : List Char → List Char → List (List Char)
  | [], acc => if acc.isEmpty then [] else [acc.reverse]
  | c :: cs, acc =>
    if isSpaceChar c then
      if acc.isEmpty then splitWordsAux cs []
      else acc.reverse :: splitWordsAux cs []
    else splitWordsAux cs (c :: acc)

/-- Python `text.split()` (no separator argument): the maximal runs of
non-whitespace characters of `s`. -/
def splitWords (s : String) : List String :=
  (splitWordsAux s.data []).map String.mk

/-- Character stream of Python `" ".join(ws)`. -/
def joinChars : List (List Char) → List Char
  | [] => []
  | [w] => w
  | w :: ws => w ++ ' ' :: joinChars ws

/-- Python `" ".join(ws)`. -/
def joinSp (ws : List String) : String :=
  String.mk (joinChars (ws.map String.data))

/-- Python list slicing `xs[a:b]` (step 1): negative bounds count from the
end, and both bounds are clamped to `[0, len(xs)]`. -/
def pySlice {α : Type} (xs : List α) (a b : Int) : List α :=
  let n : Int := xs.length
  let lo := if a < 0 then max (n + a) 0 else min a n
  let hi := if b < 0 then max (n + b) 0 else min b n
  (xs.drop lo.toNat).take (hi - lo).toNat

/-- The `while start < len(words)` loop of `_chunk_text`, with explicit
fuel.  One fuel unit is spent per loop-condition test; `none` means the
fuel ran out before the loop exited.  Each iteration appends
`" ".join(words[start:start+chunk_size])` and advances `start` by
`chunk_size - overlap` (as an integer, faithful to the Python variable). -/
def chunkLoopFuel (chunk_size overlap : Nat) (words : List String) :
    Nat → Int → List String → Option (List String)
  | 0, _, _ => none
  | fuel + 1, start, chunks =>
    if start < (words.length : Int) then
      chunkLoopFuel chunk_size overlap words fuel
        (start + (chunk_size : Int) - (overlap : Int))
        (chunks ++ [joinSp (pySlice words start (start + (chunk_size : Int)))])
    else
      some chunks

/-- `_chunk_text(text, chunk_size, overlap)` from `documents.py`
(the source's default arguments are `chunk_size=512, overlap=64`; the only
caller, `upload_document`, uses the defaults).  `words.length + 1` fuel is
proved sufficient whenever `overlap < chunk_size`
(`chunk_text_eq_slices`); for a non-positive stride the Python loop never
terminates and the embedding returns `none` for every fuel
(`chunkLoopFuel_nonpos_stride`). -/
def chunk_text (text : String) (chunk_size overlap : Nat) : Option (List String) :=
  let words := splitWords text
  if words.isEmpty then some []
  else chunkLoopFuel chunk_size overlap words (words.length + 1) 0 []

/-- Specification-level view of the chunk windows: the word slices
`words[start:start+chunk_size]`, `start` advancing by the stride
`chunk_size - overlap`, emitted exactly as long as `start < words.length`.
Defined (as `[]`) only under the positive-stride guard, which is the regime
in which it provably coincides with the fuel embedding. -/
def chunkSlicesFrom (chunk_size overlap : Nat) (ws : List String) (start : Nat) :
    List (List String) :=
  if h : start < ws.length ∧ overlap < chunk_size then
    (ws.drop start).take chunk_size ::
      chunkSlicesFrom chunk_size overlap ws (start + (chunk_size - overlap))
  else []
termination_by ws.length - start
decreasing_by
  obtain ⟨h1, h2⟩ := h
  omega

/-- Overlap-aware recombination: concatenate the chunks' word lists in
order, dropping the first `overlap` words of every chunk after the first. -/
def reconWords (overlap : Nat) (chunkWordLists : List (List String)) : List String :=
  match chunkWordLists with
  | [] => []
  | c :: rest => c ++ (rest.map (fun w => w.drop overlap)).flatten

/-- A word as produced by `splitWords`: nonempty and free of whitespace. -/
def goodWord (w : List Char) : Bool :=
  !w.isEmpty && w.all (fun c => !isSpaceChar c)

/-- Termination predicate for the `_chunk_text` loop started at
`start = 0` with an empty accumulator: some fuel lets it exit. -/
def chunkLoopTerminates (chunk_size overlap : Nat) (ws : List String) : Prop :=
  ∃ fuel, (chunkLoopFuel chunk_size overlap ws fuel 0 []).isSome

/- ── Data model (`app/db/models.py`, restricted to the fields the
ingestion pipeline reads or writes) ─────────────────────────────── -/

/-- A `Document` row: opaque id, owning user, display filename, declared
content type, server-assigned upload timestamp. -/
structure Document where
  id : Nat
  user_id : Nat
  filename : String
  content_type : String
  uploaded_at : Nat
deriving DecidableEq

/-- A `DocumentChunk` row: parent document, chunk text, zero-based sequence
index, and the reserved embedding slot (absent until a later stage). -/
structure DocumentChunk where
  document_id : Nat
  content : String
  chunk_index : Nat
  embedding : Option (List Int)
deriving DecidableEq

/-- The database state visible to the handlers, plus the id generator that
`session.flush()` taps for `doc.id`. -/
structure DB where
  documents : List Document
  chunks : List DocumentChunk
  nextDocId : Nat
deriving DecidableEq

/-- The `UploadFile` payload metadata: in FastAPI both `filename` and
`content_type` are optional strings. -/
structure UploadFile where
  filename : Option String
  content_type : Option String
deriving DecidableEq

/-- The `DocumentResponse` schema returned by upload and listing. -/
structure DocumentResponse where
  id : Nat
  filename : String
  content_type : String
  uploaded_at : Nat
  chunk_count : Nat
deriving DecidableEq

/-- The accepted media types of the upload gate. -/
def acceptedTypes : List String :=
  ["application/pdf", "text/markdown", "text/plain"]

/-- Python `value or default` on an optional string: `None` and `""` are
falsy and yield the default. -/
def pyOrStr (v : Option String) (dflt : String) : String :=
  match v with
  | none => dflt
  | some s => if s = "" then dflt else s

/-- `_extract_text(raw, content_type)` from `documents.py`.  `pdfParse`
stands for the external `pypdf` reader: `some pages` is the per-page text
layer (a page with no extractable text is `none`, contributing `""`),
`none` means the reader raised and the `except Exception` branch runs.
`decodeReplace` stands for `raw.decode("utf-8", errors="replace")`, which
never raises. -/
def extract_text (pdfParse : List Nat → Option (List (Option String)))
    (decodeReplace : List Nat → String) (raw : List Nat)
    (content_type : String) : String :=
  if content_type = "application/pdf" then
    match pdfParse raw with
    | some pages => String.intercalate ("\n") (pages.map (fun p => p.getD ("")))
    | none => decodeReplace raw
  else decodeReplace raw

/-- `upload_document` from `documents.py`.  The media-type gate runs before
the payload is read, the extractor is called, or the session is touched;
an `HTTPException` is modelled as `Except.error <status>` with the state
returned unchanged.  On success one document row and one chunk row per
chunk (with its `enumerate` index and an unset embedding) are committed. -/
def upload_document (pdfParse : List Nat → Option (List (Option String)))
    (decodeReplace : List Nat → String) (now : Nat) (db : DB) (userId : Nat)
    (file : UploadFile) (raw : List Nat) : DB × Except Nat DocumentResponse :=
  if file.content_type ∈ acceptedTypes.map some then
    let text_content := extract_text pdfParse decodeReplace raw
      (pyOrStr file.content_type ("text/plain"))
    let text_chunks := (chunk_text text_content 512 64).getD []
    let doc : Document :=
      { id := db.nextDocId
        user_id := userId
        filename := pyOrStr file.filename ("unknown")
        content_type := pyOrStr file.content_type ("application/octet-stream")
        uploaded_at := now }
    let rows := text_chunks.enum.map (fun p =>
      { document_id := doc.id
        content := p.2
        chunk_index := p.1
        embedding := none : DocumentChunk })
    ({ documents := db.documents ++ [doc]
       chunks := db.chunks ++ rows
       nextDocId := db.nextDocId + 1 },
     Except.ok
       { id := doc.id
         filename := doc.filename
         content_type := doc.content_type
         uploaded_at := doc.uploaded_at
         chunk_count := text_chunks.length })
  else
    (db, Except.error 415)

/-- `list_documents` from `documents.py`: the caller's documents, each with
an exact per-document chunk count. -/
def list_documents (db : DB) (userId : Nat) : List DocumentResponse :=
  (db.documents.filter (fun d => d.user_id == userId)).map (fun d =>
    { id := d.id
      filename := d.filename
      content_type := d.content_type
      uploaded_at := d.uploaded_at
      chunk_count := (db.chunks.filter (fun c => c.document_id == d.id)).length })

/-- `delete_document` from `documents.py`: look the document up filtered by
id and owner; absent or foreign documents give the same 404 and leave the
state unchanged; otherwise every chunk of the document is deleted, then the
document. -/
def delete_document (db : DB) (userId : Nat) (document_id : Nat) :
    DB × Except Nat Unit :=
  match db.documents.find? (fun d => d.id == document_id && d.user_id == userId) with
  | none => (db, Except.error 404)
  | some doc =>
    ({ documents := db.documents.erase doc
       chunks := db.chunks.filter (fun c => !(c.document_id == document_id))
       nextDocId := db.nextDocId },
     Except.ok ())

/- ── Concrete fixtures used by counterexamples and witnesses ─────── -/

/-- The spec's worked example: a 10-word text. -/
def tenWordText : String := "w1 w2 w3 w4 w5 w6 w7 w8 w9 w10"

/-- An empty database. -/
def emptyDB : DB := ⟨[], [], 0⟩

/-- A plain-text upload payload. -/
def fileTxt : UploadFile := ⟨some ("notes.txt"), some ("text/plain")⟩

/-- A PNG upload payload (outside the accepted media types). -/
def filePng : UploadFile := ⟨some ("cat.png"), some ("image/png")⟩

/-- A markdown upload payload with no filename. -/
def fileNoName : UploadFile := ⟨none, some ("text/markdown")⟩

/-- A database with two documents of user 7 and their chunks. -/
def dbTwoDocs : DB :=
  ⟨[⟨1, 7, "a.txt", "text/plain", 10⟩, ⟨2, 7, "b.txt", "text/plain", 11⟩],
   [⟨1, "alpha beta", 0, none⟩, ⟨1, "beta gamma", 1, none⟩, ⟨2, "delta", 0, none⟩],
   3⟩

/- ── Helper lemmas ────────────────────────────────────────────────── -/

/-- Python slicing at nonnegative natural bounds `xs[a : a + k]` is
`take k` after `drop a`. -/
theorem pySlice_natCast {α : Type} (xs : List α) (a k : Nat) :
    pySlice xs (a : Int) ((a : Int) + (k : Int)) = (xs.drop a).take k := by
  simp only [pySlice]
  rw [if_neg (by omega), if_neg (by omega)]
  rcases Nat.le_total a xs.length with hle | hge
  · have hlo : min (a : Int) (xs.length : Int) = (a : Int) := by omega
    rw [hlo]
    rcases Nat.le_total (a + k) xs.length with hk | hk
    · have hhi : min ((a : Int) + (k : Int)) (xs.length : Int) = (a : Int) + k := by
        omega
      rw [hhi]
      congr 1
      omega
    · have hhi : min ((a : Int) + (k : Int)) (xs.length : Int) = (xs.length : Int) := by
        omega
      rw [hhi]
      have h1 : ((xs.length : Int) - (a : Int)).toNat = xs.length - a := by omega
      have h2 : ((a : Int)).toNat = a := by omega
      rw [h1, h2]
      have hlen : (xs.drop a).length = xs.length - a := List.length_drop a xs
      rw [List.take_of_length_le (by omega), List.take_of_length_le (by omega)]
  · have hlo : min (a : Int) (xs.length : Int) = (xs.length : Int) := by omega
    have hhi : min ((a : Int) + (k : Int)) (xs.length : Int) = (xs.length : Int) := by
      omega
    rw [hlo, hhi]
    have h1 : ((xs.length : Int) - (xs.length : Int)).toNat = 0 := by omega
    have h2 : ((xs.length : Int)).toNat = xs.length := by omega
    rw [h1, h2, List.drop_length, List.drop_eq_nil_of_le hge]
    simp

/-- With a positive stride and enough fuel, the loop embedding computes the
accumulated chunks followed by the word-window slices, joined by spaces. -/
theorem chunkLoopFuel_eq_slices (chunk_size overlap : Nat) (ws : List String)
    (hov : overlap < chunk_size) :
    ∀ (fuel start : Nat) (acc : List String), ws.length - start < fuel →
      chunkLoopFuel chunk_size overlap ws fuel (start : Int) acc =
        some (acc ++ (chunkSlicesFrom chunk_size overlap ws start).map joinSp) := by
  intro fuel
  induction fuel with
  | zero => intro start acc h; omega
  | succ n ih =>
    intro start acc h
    by_cases hlt : start < ws.length
    · rw [chunkLoopFuel, if_pos (by exact_mod_cast hlt)]
      have hcast : (start : Int) + (chunk_size : Int) - (overlap : Int) =
          ((start + (chunk_size - overlap) : Nat) : Int) := by omega
      have hslice : pySlice ws (start : Int) ((start : Int) + (chunk_size : Int)) =
          (ws.drop start).take chunk_size := pySlice_natCast ws start chunk_size
      rw [hcast, hslice, ih (start + (chunk_size - overlap)) _ (by omega)]
      conv_rhs => rw [chunkSlicesFrom, dif_pos ⟨hlt, hov⟩]
      simp
    · rw [chunkLoopFuel, if_neg (by exact_mod_cast hlt)]
      rw [chunkSlicesFrom, dif_neg (by tauto)]
      simp

/-- `_chunk_text` with a positive stride: the fuel suffices, and the result
is exactly the joined word windows. -/
theorem chunk_text_eq_slices (text : String) (chunk_size overlap : Nat)
    (hov : overlap < chunk_size) :
    chunk_text text chunk_size overlap =
      some ((chunkSlicesFrom chunk_size overlap (splitWords text) 0).map joinSp) := by
  unfold chunk_text
  by_cases hw : (splitWords text).isEmpty
  · rw [if_pos hw]
    rw [chunkSlicesFrom, dif_neg]
    · simp
    · rintro ⟨h1, _⟩
      rw [List.isEmpty_iff] at hw
      simp [hw] at h1
  · rw [if_neg hw]
    have := chunkLoopFuel_eq_slices chunk_size overlap (splitWords text) hov
      ((splitWords text).length + 1) 0 [] (by omega)
    simpa using this

/-- With a non-positive stride (`chunk_size ≤ overlap`) and the window still
inside the word list, the loop never exits: every fuel is exhausted.  This
is the divergent regime of the unguarded Python `while` loop. -/
theorem chunkLoopFuel_nonpos_stride (chunk_size overlap : Nat)
    (hc : chunk_size ≤ overlap) (ws : List String) :
    ∀ (fuel : Nat) (start : Int) (acc : List String),
      start < (ws.length : Int) →
      chunkLoopFuel chunk_size overlap ws fuel start acc = none := by
  intro fuel
  induction fuel with
  | zero => intro start acc _; rfl
  | succ n ih =>
    intro start acc hlt
    rw [chunkLoopFuel, if_pos hlt]
    exact ih _ _ (by omega)

/-- Length of the slice list: the chunk count is `⌈(L - start) / stride⌉`,
computed as `((L - start) + stride - 1) / stride`. -/
theorem chunkSlicesFrom_length (chunk_size overlap : Nat) (ws : List String)
    (hov : overlap < chunk_size) :
    ∀ start, (chunkSlicesFrom chunk_size overlap ws start).length =
      ((ws.length - start) + (chunk_size - overlap) - 1) / (chunk_size - overlap) := by
  have hs : 0 < chunk_size - overlap := by omega
  suffices H : ∀ d start, ws.length - start ≤ d →
      (chunkSlicesFrom chunk_size overlap ws start).length =
        ((ws.length - start) + (chunk_size - overlap) - 1) / (chunk_size - overlap) by
    intro start
    exact H ws.length start (by omega)
  intro d
  induction d with
  | zero =>
    intro start hd
    rw [chunkSlicesFrom, dif_neg (by omega)]
    have h0 : ws.length - start = 0 := by omega
    have hdiv : (0 + (chunk_size - overlap) - 1) / (chunk_size - overlap) = 0 :=
      Nat.div_eq_of_lt (by omega)
    rw [h0, List.length_nil, hdiv]
  | succ n ih =>
    intro start hd
    by_cases hlt : start < ws.length
    · rw [chunkSlicesFrom, dif_pos ⟨hlt, hov⟩]
      rw [List.length_cons, ih (start + (chunk_size - overlap)) (by omega)]
      set s := chunk_size - overlap with hsdef
      set m := ws.length - start with hmdef
      have hm1 : 1 ≤ m := by omega
      have harith : ws.length - (start + s) = m - s := by omega
      rw [harith]
      rcases Nat.le_total s m with hsm | hms
      · have hsplit : m + s - 1 = ((m - s) + s - 1) + s := by omega
        rw [hsplit, Nat.add_div_right _ hs]
      · have h1 : m - s = 0 := by omega
        have h2 : (0 + s - 1) / s = 0 := Nat.div_eq_of_lt (by omega)
        have h3 : (m + s - 1) / s = 1 := Nat.div_eq_of_lt_le (by omega) (by omega)
        rw [h1, h2, h3]
    · rw [chunkSlicesFrom, dif_neg (by omega)]
      have h0 : ws.length - start = 0 := by omega
      have hdiv : (0 + (chunk_size - overlap) - 1) / (chunk_size - overlap) = 0 :=
        Nat.div_eq_of_lt (by omega)
      rw [h0, List.length_nil, hdiv]

/-- Tail of the reconstruction: dropping `overlap` words from every window
starting at `start` and concatenating recovers `ws.drop (start + overlap)`. -/
theorem chunkSlicesFrom_drop_flatten (chunk_size overlap : Nat) (ws : List String)
    (hov : overlap < chunk_size) :
    ∀ start, ((chunkSlicesFrom chunk_size overlap ws start).map
        (fun w => w.drop overlap)).flatten = ws.drop (start + overlap) := by
  suffices H : ∀ d start, ws.length - start ≤ d →
      ((chunkSlicesFrom chunk_size overlap ws start).map
        (fun w => w.drop overlap)).flatten = ws.drop (start + overlap) by
    intro start
    exact H ws.length start (by omega)
  intro d
  induction d with
  | zero =>
    intro start hd
    rw [chunkSlicesFrom, dif_neg (by omega)]
    simp only [List.map_nil, List.flatten_nil]
    rw [eq_comm, List.drop_eq_nil_iff]
    omega
  | succ n ih =>
    intro start hd
    by_cases hlt : start < ws.length
    · rw [chunkSlicesFrom, dif_pos ⟨hlt, hov⟩]
      simp only [List.map_cons, List.flatten_cons]
      rw [ih (start + (chunk_size - overlap)) (by omega)]
      rw [List.drop_take, List.drop_drop]
      have h1 : start + (chunk_size - overlap) + overlap =
          (chunk_size - overlap) + (start + overlap) := by omega
      rw [h1, List.drop_take_append_drop']
    · rw [chunkSlicesFrom, dif_neg (by omega)]
      simp only [List.map_nil, List.flatten_nil]
      rw [eq_comm, List.drop_eq_nil_iff]
      omega

/-- Overlap-aware recombination of the word windows reconstructs the word
sequence exactly. -/
theorem reconWords_chunkSlices (chunk_size overlap : Nat) (ws : List String)
    (hov : overlap < chunk_size) :
    reconWords overlap (chunkSlicesFrom chunk_size overlap ws 0) = ws := by
  by_cases hlt : 0 < ws.length
  · rw [chunkSlicesFrom, dif_pos ⟨hlt, hov⟩]
    rw [reconWords]
    rw [chunkSlicesFrom_drop_flatten chunk_size overlap ws hov]
    have h1 : 0 + (chunk_size - overlap) + overlap = chunk_size := by omega
    rw [h1, List.drop_zero, List.take_append_drop]
  · rw [chunkSlicesFrom, dif_neg (by omega), reconWords]
    have : ws = [] := List.eq_nil_of_length_eq_zero (by omega)
    rw [this]

/-- Every word of every window is a word of `ws`. -/
theorem chunkSlicesFrom_mem (chunk_size overlap : Nat) (ws : List String) :
    ∀ start c, c ∈ chunkSlicesFrom chunk_size overlap ws start → ∀ x ∈ c, x ∈ ws := by
  suffices H : ∀ d start, ws.length - start ≤ d →
      ∀ c, c ∈ chunkSlicesFrom chunk_size overlap ws start → ∀ x ∈ c, x ∈ ws by
    intro start
    exact H ws.length start (by omega)
  intro d
  induction d with
  | zero =>
    intro start hd c hc
    by_cases hg : start < ws.length ∧ overlap < chunk_size
    · omega
    · rw [chunkSlicesFrom, dif_neg hg] at hc
      simp at hc
  | succ n ih =>
    intro start hd c hc
    by_cases hg : start < ws.length ∧ overlap < chunk_size
    · rw [chunkSlicesFrom, dif_pos hg] at hc
      rcases List.mem_cons.mp hc with hhead | htail
      · intro x hx
        rw [hhead] at hx
        exact List.drop_subset start ws (List.take_subset chunk_size _ hx)
      · exact ih (start + (chunk_size - overlap)) (by omega) c htail
    · rw [chunkSlicesFrom, dif_neg hg] at hc
      simp at hc

/- ── `splitWords` / `joinSp` round trip ──────────────────────────── -/

/-- Words emitted by the splitter are nonempty and whitespace-free,
provided the running accumulator is whitespace-free. -/
theorem splitWordsAux_good :
    ∀ (s acc : List Char), (∀ c ∈ acc, isSpaceChar c = false) →
      ∀ w ∈ splitWordsAux s acc, goodWord w = true := by
  intro s
  induction s with
  | nil =>
    intro acc hacc w hw
    rw [splitWordsAux] at hw
    by_cases he : acc.isEmpty
    · rw [if_pos he] at hw
      simp at hw
    · rw [if_neg he] at hw
      rcases List.mem_singleton.mp hw with rfl
      rw [goodWord]
      have hne : acc ≠ [] := fun h => he (by rw [h]; rfl)
      simp only [Bool.and_eq_true, Bool.not_eq_true', List.isEmpty_iff, List.all_eq_true]
      constructor
      · simp [hne]
      · intro c hc
        exact hacc c (List.mem_reverse.mp hc)
  | cons c cs ih =>
    intro acc hacc w hw
    rw [splitWordsAux] at hw
    by_cases hsp : isSpaceChar c
    · rw [if_pos hsp] at hw
      by_cases he : acc.isEmpty
      · rw [if_pos he] at hw
        exact ih [] (by simp) w hw
      · rw [if_neg he] at hw
        rcases List.mem_cons.mp hw with rfl | htail
        · rw [goodWord]
          have hne : acc ≠ [] := fun h => he (by rw [h]; rfl)
          simp only [Bool.and_eq_true, Bool.not_eq_true', List.isEmpty_iff, List.all_eq_true]
          constructor
          · simp [hne]
          · intro x hx
            exact hacc x (List.mem_reverse.mp hx)
        · exact ih [] (by simp) w htail
    · rw [if_neg hsp] at hw
      refine ih (c :: acc) ?_ w hw
      intro x hx
      rcases List.mem_cons.mp hx with rfl | hx'
      · exact Bool.not_eq_true _ ▸ (by simpa using hsp)
      · exact hacc x hx'

/-- Scanning a whitespace-free prefix just accumulates it (reversed). -/
theorem splitWordsAux_append (w : List Char) :
    (∀ c ∈ w, isSpaceChar c = false) →
    ∀ (s acc : List Char),
      splitWordsAux (w ++ s) acc = splitWordsAux s (w.reverse ++ acc) := by
  induction w with
  | nil => intro _ s acc; simp
  | cons c cs ih =>
    intro hw s acc
    have hc : isSpaceChar c = false := hw c (List.mem_cons_self c cs)
    have hcs : ∀ x ∈ cs, isSpaceChar x = false := fun x hx =>
      hw x (List.mem_cons_of_mem c hx)
    rw [List.cons_append, splitWordsAux, if_neg (by simp [hc]), ih hcs]
    congr 1
    simp

/-- Splitting the space-joined list of good words recovers the words. -/
theorem splitWordsAux_joinChars :
    ∀ ls : List (List Char), (∀ w ∈ ls, goodWord w = true) →
      splitWordsAux (joinChars ls) [] = ls := by
  intro ls
  induction ls with
  | nil => intro _; rfl
  | cons w t ih =>
    intro hgood
    have hw : goodWord w = true := hgood w (List.mem_cons_self w t)
    have hwne : w ≠ [] := by
      intro hnil
      rw [goodWord, hnil] at hw
      simp at hw
    have hwns : ∀ c ∈ w, isSpaceChar c = false := by
      rw [goodWord, Bool.and_eq_true, List.all_eq_true] at hw
      intro c hc
      simpa using hw.2 c hc
    cases t with
    | nil =>
      have hj : joinChars [w] = w := rfl
      rw [hj]
      have hstep := splitWordsAux_append w hwns [] []
      rw [List.append_nil] at hstep
      rw [hstep, splitWordsAux, if_neg (by simp [hwne])]
      simp
    | cons x t' =>
      have hj : joinChars (w :: x :: t') = w ++ ' ' :: joinChars (x :: t') := rfl
      rw [hj, splitWordsAux_append w hwns, splitWordsAux,
        if_pos (by rfl), if_neg (by simp [hwne])]
      rw [ih (fun v hv => hgood v (List.mem_cons_of_mem w hv))]
      simp

/-- Rebuilding a `String` from its character data is the identity. -/
theorem String_mk_data (s : String) : String.mk s.data = s := rfl

/-- String-level round trip: splitting `" ".join(ws)` recovers `ws` when
every word is nonempty and whitespace-free. -/
theorem splitWords_joinSp (ws : List String)
    (h : ∀ w ∈ ws, goodWord w.data = true) :
    splitWords (joinSp ws) = ws := by
  rw [splitWords, joinSp]
  have hdata : (String.mk (joinChars (ws.map String.data))).data =
      joinChars (ws.map String.data) := rfl
  rw [hdata]
  rw [splitWordsAux_joinChars (ws.map String.data) (by
    intro w hw
    rcases List.mem_map.mp hw with ⟨v, hv, rfl⟩
    exact h v hv)]
  rw [List.map_map]
  have : (String.mk ∘ String.data) = id := by
    funext x
    rfl
  rw [this, List.map_id]

/-- Every word produced by `splitWords` is nonempty and whitespace-free. -/
theorem splitWords_good (text : String) :
    ∀ w ∈ splitWords text, goodWord w.data = true := by
  intro w hw
  rw [splitWords] at hw
  rcases List.mem_map.mp hw with ⟨v, hv, rfl⟩
  exact splitWordsAux_good text.data [] (by simp) v hv

/-- On the word windows of `splitWords text`, splitting undoes joining. -/
theorem map_splitWords_joinSp_slices (chunk_size overlap : Nat) (text : String) :
    ((chunkSlicesFrom chunk_size overlap (splitWords text) 0).map joinSp).map
        splitWords =
      chunkSlicesFrom chunk_size overlap (splitWords text) 0 := by
  rw [List.map_map]
  have hptw : ∀ c ∈ chunkSlicesFrom chunk_size overlap (splitWords text) 0,
      (splitWords ∘ joinSp) c = id c := by
    intro c hc
    have : splitWords (joinSp c) = c := by
      apply splitWords_joinSp
      intro w hw
      exact splitWords_good text w
        (chunkSlicesFrom_mem chunk_size overlap (splitWords text) 0 c hc w hw)
    simpa using this
  rw [List.map_congr_left hptw, List.map_id]

/-- Shape of the chunk table after an accepted upload: the old rows
followed by one row per chunk, carrying the `enumerate` index and an unset
embedding. -/
theorem upload_document_accepted_chunks
    (pdfParse : List Nat → Option (List (Option String)))
    (decodeReplace : List Nat → String) (now : Nat) (db : DB) (userId : Nat)
    (file : UploadFile) (raw : List Nat)
    (hct : file.content_type ∈ acceptedTypes.map some) :
    (upload_document pdfParse decodeReplace now db userId file raw).1.chunks =
      db.chunks ++
        (((chunk_text (extract_text pdfParse decodeReplace raw
            (pyOrStr file.content_type ("text/plain"))) 512 64).getD []).enum.map
          (fun p => { document_id := db.nextDocId
                      content := p.2
                      chunk_index := p.1
                      embedding := none })) := by
  rw [upload_document, if_pos hct]

/- ── Claim theorems ───────────────────────────────────────────────── -/

/-- C1 (counterexample): on the spec's own example — a 10-word text with
`chunk_size_words=4, overlap_words=1` — the chunker returns FOUR chunks,
word ranges `[0:4]`, `[3:7]`, `[6:10]` and `[9:10]`, not the three chunks
`ceil((L - overlap)/stride) = 3` the claim predicts: the loop also emits a
trailing window that starts inside the previous chunk's overlap. -/
theorem chunk_count_spec_counterexample :
    chunk_text tenWordText 4 1 =
        some ["w1 w2 w3 w4", "w4 w5 w6 w7", "w7 w8 w9 w10", "w10"] ∧
      (chunk_text tenWordText 4 1).map List.length ≠ some 3 := by
  constructor
  · decide
  · decide

/-- C1 (amended): for `chunk_size_words > overlap_words > 0` the number of
chunks is `ceil(L / stride)` — computed as `(L + stride - 1) / stride` with
`stride = chunk_size_words - overlap_words` — for every word count `L`
(this gives `0` for `L = 0`, `1` exactly when `0 < L ≤ stride`, and in
general exceeds the claimed `ceil((L - overlap)/stride)`; a text shorter
than `chunk_size_words` but longer than the stride yields more than one
chunk). -/
theorem chunk_count_formula (chunk_size overlap : Nat) (text : String)
    (hpos : 0 < overlap) (hov : overlap < chunk_size) :
    (chunk_text text chunk_size overlap).map List.length =
      some (((splitWords text).length + (chunk_size - overlap) - 1) /
        (chunk_size - overlap)) := by
  rw [chunk_text_eq_slices text chunk_size overlap hov]
  rw [Option.map_some', List.length_map]
  rw [chunkSlicesFrom_length chunk_size overlap (splitWords text) hov 0]
  congr 2

/-- C1 (witness): the amended count formula evaluated on the ten-word
example with `chunk_size_words=4, overlap_words=1`. -/
theorem chunk_count_formula_witness :
    (0 : Nat) < 1 ∧ 1 < 4 ∧
      (chunk_text tenWordText 4 1).map List.length =
        some (((splitWords tenWordText).length + (4 - 1) - 1) / (4 - 1)) :=
  ⟨by omega, by omega, chunk_count_formula 4 1 tenWordText (by omega) (by omega)⟩

/-- C2 (counterexample): with `overlap_words = chunk_size_words = 4` and a
one-word input, the chunking loop is not guarded: no amount of fuel makes
the `while` loop exit, i.e. the configuration is neither rejected nor
clamped — the code loops forever. -/
theorem chunk_no_guard_counterexample : ¬ chunkLoopTerminates 4 4 ["a"] := by
  rintro ⟨fuel, hf⟩
  rw [chunkLoopFuel_nonpos_stride 4 4 (by omega) ["a"] fuel 0 [] (by decide)] at hf
  simp at hf

/-- C2 (amended): the code contains no guard for a non-positive stride:
for every configuration with `chunk_size_words ≤ overlap_words` and every
nonempty word list, the chunking loop never terminates (the window never
advances past the end).  The only call site, `upload_document`, is safe
solely because it always uses the defaults `512 > 64`. -/
theorem chunk_no_guard_diverges (chunk_size overlap : Nat) (ws : List String)
    (hc : chunk_size ≤ overlap) (hne : ws ≠ []) :
    ¬ chunkLoopTerminates chunk_size overlap ws := by
  rintro ⟨fuel, hf⟩
  have hlen : (0 : Int) < (ws.length : Int) := by
    have : 0 < ws.length := List.length_pos.mpr hne
    exact_mod_cast this
  rw [chunkLoopFuel_nonpos_stride chunk_size overlap hc ws fuel 0 [] hlen] at hf
  simp at hf

/-- C2 (witness): divergence at `chunk_size_words=5, overlap_words=7` on a
two-word input. -/
theorem chunk_no_guard_diverges_witness :
    5 ≤ 7 ∧ (["x", "y"] : List String) ≠ [] ∧
      ¬ chunkLoopTerminates 5 7 ["x", "y"] :=
  ⟨by omega, by simp, chunk_no_guard_diverges 5 7 ["x", "y"] (by omega) (by simp)⟩

/-- C9: with a positive stride the loop terminates (the `L + 1` fuel bound
is reached in no run), and the chunks are exactly the space-joined windows
`words[start : start + chunk_size]`, one per iteration, `start` advancing
by the stride and a chunk being emitted exactly as long as
`start < len(words)` — the final chunk possibly shorter. -/
theorem chunk_loop_terminates (chunk_size overlap : Nat) (text : String)
    (hov : overlap < chunk_size) :
    (chunk_text text chunk_size overlap).isSome = true ∧
      chunk_text text chunk_size overlap =
        some ((chunkSlicesFrom chunk_size overlap (splitWords text) 0).map joinSp) := by
  refine ⟨?_, chunk_text_eq_slices text chunk_size overlap hov⟩
  rw [chunk_text_eq_slices text chunk_size overlap hov]
  rfl

/-- C9 (witness): termination on a five-word text with
`chunk_size_words=3, overlap_words=1`. -/
theorem chunk_loop_terminates_witness :
    (chunk_text ("a b c d e") 3 1).isSome = true ∧
      chunk_text ("a b c d e") 3 1 =
        some ((chunkSlicesFrom 3 1 (splitWords ("a b c d e")) 0).map joinSp) :=
  chunk_loop_terminates 3 1 ("a b c d e") (by omega)

/-- C4: the extractor never raises.  If the structured PDF parse raises
(`pdfParse raw = none`) the result for `application/pdf` is the best-effort
byte decode with replacement, and for any other declared type — whatever
the PDF parser would do — the result is the byte decode with replacement:
a string is always returned. -/
theorem extract_text_never_raises
    (pdfParse pdfParse2 : List Nat → Option (List (Option String)))
    (decodeReplace : List Nat → String) (raw : List Nat) (ct : String)
    (hfail : pdfParse raw = none) (hct : ct ≠ "application/pdf") :
    extract_text pdfParse decodeReplace raw ("application/pdf") = decodeReplace raw ∧
      extract_text pdfParse2 decodeReplace raw ct = decodeReplace raw := by
  constructor
  · rw [extract_text, if_pos rfl, hfail]
  · rw [extract_text, if_neg hct]

/-- C4 (witness): a two-byte garbage payload declared as PDF on a failing
parser, and the same payload declared as plain text. -/
theorem extract_text_never_raises_witness :
    (fun _ : List Nat => (none : Option (List (Option String)))) [255, 0] = none ∧
      "text/plain" ≠ "application/pdf" ∧
      extract_text (fun _ => none) (fun _ => "garbled") [255, 0] "application/pdf" =
        (fun _ : List Nat => "garbled") [255, 0] ∧
      extract_text (fun _ => none) (fun _ => "garbled") [255, 0] "text/plain" =
        (fun _ : List Nat => "garbled") [255, 0] := by
  refine ⟨rfl, by decide, ?_⟩
  exact extract_text_never_raises (fun _ => none) (fun _ => none)
    (fun _ => "garbled") [255, 0] "text/plain" rfl (by decide)

/-- C5: an upload whose declared media type is outside
`{application/pdf, text/markdown, text/plain}` (including a missing type)
fails with 415 and leaves the state unchanged; the result does not depend
on the extractor, the PDF parser, the decoder or the payload bytes, which
are never consulted. -/
theorem upload_rejects_unsupported_type
    (pdfParse : List Nat → Option (List (Option String)))
    (decodeReplace : List Nat → String) (now : Nat) (db : DB) (userId : Nat)
    (file : UploadFile) (raw : List Nat)
    (h : file.content_type ∉ acceptedTypes.map some) :
    upload_document pdfParse decodeReplace now db userId file raw =
      (db, Except.error 415) := by
  rw [upload_document, if_neg h]

/-- C5 (witness): a PNG upload against a nonempty database is rejected with
415 and the database value is returned unchanged. -/
theorem upload_rejects_unsupported_type_witness :
    filePng.content_type ∉ acceptedTypes.map some ∧
      upload_document (fun _ => none) (fun _ => "png bytes") 9 dbTwoDocs 7
          filePng [1, 2, 3] =
        (dbTwoDocs, Except.error 415) :=
  ⟨by decide, upload_rejects_unsupported_type (fun _ => none) (fun _ => "png bytes")
    9 dbTwoDocs 7 filePng [1, 2, 3] (by decide)⟩

/-- C6: an accepted upload whose extracted text has no words still
succeeds: the chunker returns the empty sequence, exactly one document row
and no chunk rows are created, and the response reports `chunk_count = 0`. -/
theorem upload_empty_text_ok
    (pdfParse : List Nat → Option (List (Option String)))
    (decodeReplace : List Nat → String) (now : Nat) (db : DB) (userId : Nat)
    (file : UploadFile) (raw : List Nat)
    (hct : file.content_type ∈ acceptedTypes.map some)
    (hempty : splitWords (extract_text pdfParse decodeReplace raw
      (pyOrStr file.content_type ("text/plain"))) = []) :
    upload_document pdfParse decodeReplace now db userId file raw =
      ({ documents := db.documents ++
           [{ id := db.nextDocId
              user_id := userId
              filename := pyOrStr file.filename ("unknown")
              content_type := pyOrStr file.content_type ("application/octet-stream")
              uploaded_at := now }]
         chunks := db.chunks
         nextDocId := db.nextDocId + 1 },
       Except.ok
         { id := db.nextDocId
           filename := pyOrStr file.filename ("unknown")
           content_type := pyOrStr file.content_type ("application/octet-stream")
           uploaded_at := now
           chunk_count := 0 }) := by
  have hchunks : chunk_text (extract_text pdfParse decodeReplace raw
      (pyOrStr file.content_type ("text/plain"))) 512 64 = some [] := by
    rw [chunk_text, if_pos (List.isEmpty_iff.mpr hempty)]
  rw [upload_document, if_pos hct]
  simp only [hchunks, Option.getD_some, List.enum_nil, List.map_nil,
    List.append_nil, List.length_nil]

/-- C6 (witness): uploading a zero-byte plain-text file (decoder returns
the empty string) against the empty database succeeds with one document
and `chunk_count = 0`. -/
theorem upload_empty_text_ok_witness :
    fileTxt.content_type ∈ acceptedTypes.map some ∧
      splitWords (extract_text (fun _ => none) (fun _ => "") []
        (pyOrStr fileTxt.content_type ("text/plain"))) = [] ∧
      upload_document (fun _ => none) (fun _ => "") 3 emptyDB 1 fileTxt [] =
        ({ documents := emptyDB.documents ++
             [{ id := emptyDB.nextDocId
                user_id := 1
                filename := pyOrStr fileTxt.filename ("unknown")
                content_type := pyOrStr fileTxt.content_type ("application/octet-stream")
                uploaded_at := 3 }]
           chunks := emptyDB.chunks
           nextDocId := emptyDB.nextDocId + 1 },
         Except.ok
           { id := emptyDB.nextDocId
             filename := pyOrStr fileTxt.filename ("unknown")
             content_type := pyOrStr fileTxt.content_type ("application/octet-stream")
             uploaded_at := 3
             chunk_count := 0 }) :=
  ⟨by decide, by decide, upload_empty_text_ok (fun _ => none) (fun _ => "") 3
    emptyDB 1 fileTxt [] (by decide) (by decide)⟩

/-- C7: deleting a document that does not exist, or that belongs to a
different user than the caller — the lookup is filtered by both the id and
the caller's id, so the two cases are the same `find?` miss — reports 404
and leaves the state (documents and chunks) unchanged. -/
theorem delete_not_found_unchanged (db : DB) (userId docId : Nat)
    (hfind : db.documents.find?
      (fun d => d.id == docId && d.user_id == userId) = none) :
    delete_document db userId docId = (db, Except.error 404) := by
  simp only [delete_document, hfind]

/-- C7 (witness): deleting document 1 (owned by user 7) as user 8 returns
404 with the database unchanged — indistinguishable from deleting the
nonexistent document 99. -/
theorem delete_not_found_unchanged_witness :
    dbTwoDocs.documents.find?
        (fun d => d.id == 1 && d.user_id == 8) = none ∧
      delete_document dbTwoDocs 8 1 = (dbTwoDocs, Except.error 404) ∧
      delete_document dbTwoDocs 7 99 = (dbTwoDocs, Except.error 404) :=
  ⟨by decide,
   delete_not_found_unchanged dbTwoDocs 8 1 (by decide),
   delete_not_found_unchanged dbTwoDocs 7 99 (by decide)⟩

/-- C10: past the media-type gate, the created document's filename is the
supplied filename, except that a missing (`None`) or empty filename is
replaced by the literal `"unknown"` (Python's `file.filename or
"unknown"`). -/
theorem upload_filename_fallback
    (pdfParse : List Nat → Option (List (Option String)))
    (decodeReplace : List Nat → String) (now : Nat) (db : DB) (userId : Nat)
    (file : UploadFile) (raw : List Nat)
    (hct : file.content_type ∈ acceptedTypes.map some) :
    ((upload_document pdfParse decodeReplace now db userId file raw).1.documents.getLast?).map
        Document.filename =
      some (if file.filename = none ∨ file.filename = some ("") then ("unknown")
        else file.filename.getD ("")) := by
  rw [upload_document, if_pos hct]
  simp only [List.getLast?_concat, Option.map_some']
  cases hf : file.filename with
  | none => simp [pyOrStr]
  | some s =>
    by_cases hs : s = ""
    · simp [pyOrStr, hs]
    · simp [pyOrStr, hs]

/-- C10 (witness): an upload with no filename gets `"unknown"`, one with
`"notes.txt"` keeps it exactly. -/
theorem upload_filename_fallback_witness :
    fileNoName.content_type ∈ acceptedTypes.map some ∧
      fileTxt.content_type ∈ acceptedTypes.map some ∧
      ((upload_document (fun _ => none) (fun _ => "hi there") 0 emptyDB 1
          fileNoName [104]).1.documents.getLast?).map Document.filename =
        some (if fileNoName.filename = none ∨ fileNoName.filename = some ("")
          then ("unknown") else fileNoName.filename.getD ("")) ∧
      ((upload_document (fun _ => none) (fun _ => "hi there") 0 emptyDB 1
          fileTxt [104]).1.documents.getLast?).map Document.filename =
        some (if fileTxt.filename = none ∨ fileTxt.filename = some ("")
          then ("unknown") else fileTxt.filename.getD ("")) :=
  ⟨by decide, by decide,
   upload_filename_fallback (fun _ => none) (fun _ => "hi there") 0 emptyDB 1
     fileNoName [104] (by decide),
   upload_filename_fallback (fun _ => none) (fun _ => "hi there") 0 emptyDB 1
     fileTxt [104] (by decide)⟩

/-- C8: deleting an existing document owned by the caller succeeds (204, no
body), removes every chunk whose parent is that document and then the
document itself: the surviving chunk table is exactly the chunks of other
documents, no chunk referencing the document remains, and — under the
primary-key invariant that document ids are unique — a subsequent listing
by the owner no longer contains the document. -/
theorem delete_owned_cascades (db : DB) (userId docId : Nat) (d : Document)
    (hfind : db.documents.find?
      (fun x => x.id == docId && x.user_id == userId) = some d)
    (hnodup : (db.documents.map Document.id).Nodup) :
    (delete_document db userId docId).2 = Except.ok () ∧
      (delete_document db userId docId).1.chunks =
        db.chunks.filter (fun c => !(c.document_id == docId)) ∧
      (delete_document db userId docId).1.chunks.filter
        (fun c => c.document_id == docId) = [] ∧
      docId ∉ (list_documents (delete_document db userId docId).1 userId).map
        DocumentResponse.id := by
  have hdel : delete_document db userId docId =
      ({ documents := db.documents.erase d
         chunks := db.chunks.filter (fun c => !(c.document_id == docId))
         nextDocId := db.nextDocId }, Except.ok ()) := by
    simp only [delete_document, hfind]
  have hdid : d.id = docId := by
    have hp := List.find?_some hfind
    simp only [Bool.and_eq_true, beq_iff_eq] at hp
    exact hp.1
  have hdmem : d ∈ db.documents := List.mem_of_find?_eq_some hfind
  refine ⟨by rw [hdel], by rw [hdel], ?_, ?_⟩
  · rw [hdel]
    simp only [List.filter_filter]
    rw [List.filter_eq_nil_iff]
    intro c _
    simp
  · rw [hdel]
    intro hmem
    simp only [list_documents, List.map_map, List.mem_map,
      Function.comp_apply] at hmem
    rcases hmem with ⟨d', hd', hid⟩
    have hd'erase : d' ∈ db.documents.erase d := List.mem_of_mem_filter hd'
    have hd'mem : d' ∈ db.documents := List.mem_of_mem_erase hd'erase
    have hdd : d' = d := by
      apply List.inj_on_of_nodup_map hnodup hd'mem hdmem
      rw [hid, hdid]
    have hnd : db.documents.Nodup := List.Nodup.of_map Document.id hnodup
    have := (List.Nodup.mem_erase_iff hnd).mp (hdd ▸ hd'erase)
    exact this.1 rfl

/-- C8 (witness): as user 7, deleting document 1 of `dbTwoDocs` removes
both of its chunks and the document, keeps the chunk of document 2, and
document 1 disappears from the owner's listing. -/
theorem delete_owned_cascades_witness :
    dbTwoDocs.documents.find?
        (fun x => x.id == 1 && x.user_id == 7) =
        some ⟨1, 7, "a.txt", "text/plain", 10⟩ ∧
      (dbTwoDocs.documents.map Document.id).Nodup ∧
      (delete_document dbTwoDocs 7 1).2 = Except.ok () ∧
      (delete_document dbTwoDocs 7 1).1.chunks =
        dbTwoDocs.chunks.filter (fun c => !(c.document_id == 1)) ∧
      (delete_document dbTwoDocs 7 1).1.chunks.filter
        (fun c => c.document_id == 1) = [] ∧
      1 ∉ (list_documents (delete_document dbTwoDocs 7 1).1 7).map
        DocumentResponse.id := by
  refine ⟨by decide, by decide, ?_⟩
  exact delete_owned_cascades dbTwoDocs 7 1 ⟨1, 7, "a.txt", "text/plain", 10⟩
    (by decide) (by decide)

/-- C3: the reconstruction invariant.  (a) For every
`chunk_size_words > overlap_words > 0` and every text, splitting each
produced chunk back into words, dropping the first `overlap_words` words
of every chunk after the first and concatenating yields exactly the
whitespace-split word sequence of the text.  (b) For an accepted upload,
the persisted chunk rows carry exactly the sequence indices
`0..chunk_count-1` in order, with no gaps or duplicates, and (c) the same
overlap-aware recombination (with the production overlap 64) of the
persisted chunk contents reconstructs the word sequence of the extracted
text. -/
theorem chunks_reconstruct (chunk_size overlap : Nat) (text : String)
    (pdfParse : List Nat → Option (List (Option String)))
    (decodeReplace : List Nat → String) (now : Nat) (db : DB) (userId : Nat)
    (file : UploadFile) (raw : List Nat)
    (hpos : 0 < overlap) (hov : overlap < chunk_size)
    (hct : file.content_type ∈ acceptedTypes.map some) :
    reconWords overlap
        (((chunkSlicesFrom chunk_size overlap (splitWords text) 0).map joinSp).map
          splitWords) = splitWords text ∧
      ((upload_document pdfParse decodeReplace now db userId file raw).1.chunks.drop
          db.chunks.length).map DocumentChunk.chunk_index =
        List.range
          ((upload_document pdfParse decodeReplace now db userId file
              raw).1.chunks.length - db.chunks.length) ∧
      reconWords 64
          (((upload_document pdfParse decodeReplace now db userId file
              raw).1.chunks.drop db.chunks.length).map
            (fun c => splitWords c.content)) =
        splitWords (extract_text pdfParse decodeReplace raw
          (pyOrStr file.content_type ("text/plain"))) := by
  have hchunks := upload_document_accepted_chunks pdfParse decodeReplace now db
    userId file raw hct
  have htc : (chunk_text (extract_text pdfParse decodeReplace raw
        (pyOrStr file.content_type ("text/plain"))) 512 64).getD [] =
      (chunkSlicesFrom 512 64 (splitWords (extract_text pdfParse decodeReplace raw
        (pyOrStr file.content_type ("text/plain")))) 0).map joinSp := by
    rw [chunk_text_eq_slices _ 512 64 (by omega), Option.getD_some]
  refine ⟨?_, ?_, ?_⟩
  · rw [map_splitWords_joinSp_slices]
    exact reconWords_chunkSlices chunk_size overlap (splitWords text) hov
  · rw [hchunks, List.drop_left, List.map_map]
    have hfst : (DocumentChunk.chunk_index ∘ fun p : Nat × String =>
        ({ document_id := db.nextDocId
           content := p.2
           chunk_index := p.1
           embedding := none } : DocumentChunk)) = Prod.fst := by
      funext p
      rfl
    rw [hfst, List.enum_map_fst]
    congr 1
    simp
  · rw [hchunks, List.drop_left, List.map_map]
    have hsnd : ((fun c : DocumentChunk => splitWords c.content) ∘
        fun p : Nat × String =>
        ({ document_id := db.nextDocId
           content := p.2
           chunk_index := p.1
           embedding := none } : DocumentChunk)) = splitWords ∘ Prod.snd := by
      funext p
      rfl
    rw [hsnd, ← List.map_map, List.enum_map_snd, htc]
    rw [map_splitWords_joinSp_slices 512 64]
    exact reconWords_chunkSlices 512 64 _ (by omega)

/-- C3 (witness): the invariant at `chunk_size_words=2, overlap_words=1`
on a three-word text, and for an actual upload of a plain-text file whose
decoded content is three words. -/
theorem chunks_reconstruct_witness :
    (0 : Nat) < 1 ∧ 1 < 2 ∧ fileTxt.content_type ∈ acceptedTypes.map some ∧
      (reconWords 1
          (((chunkSlicesFrom 2 1 (splitWords ("a b c")) 0).map joinSp).map
            splitWords) = splitWords ("a b c") ∧
        ((upload_document (fun _ => none) (fun _ => "hello world hello") 0
            emptyDB 1 fileTxt [104]).1.chunks.drop
            emptyDB.chunks.length).map DocumentChunk.chunk_index =
          List.range
            ((upload_document (fun _ => none) (fun _ => "hello world hello") 0
                emptyDB 1 fileTxt [104]).1.chunks.length -
              emptyDB.chunks.length) ∧
        reconWords 64
            (((upload_document (fun _ => none) (fun _ => "hello world hello") 0
                emptyDB 1 fileTxt [104]).1.chunks.drop
              emptyDB.chunks.length).map (fun c => splitWords c.content)) =
          splitWords (extract_text (fun _ => none)
            (fun _ => "hello world hello") [104]
            (pyOrStr fileTxt.content_type ("text/plain")))) :=
  ⟨by omega, by omega, by decide,
   chunks_reconstruct 2 1 ("a b c") (fun _ => none)
     (fun _ => "hello world hello") 0 emptyDB 1 fileTxt [104]
     (by omega) (by omega) (by decide)⟩

end TTYD
